import Mathlib

/-!
Verification of the kscrpr local archive store against its specification.

The Rust sources are shallowly embedded: paths are lists of components,
the on-disk state (directories, symlinks, files, the sled record store and
the tantivy index) is an explicit `FSState`, and the effectful operations of
`src/filesystem.rs`, `src/searcher.rs` and `src/command.rs` become state
transformers.  External library behaviour (sled's byte-ordered keys,
`symlink::symlink_dir` failing on an existing destination, tantivy's boolean
and top-docs collectors, zip extraction and the network download) is modelled
from the libraries' documented semantics; download, extraction and PDF
generation outcomes are oracle parameters since they depend on the outside
world.
-/

set_option maxRecDepth 4000

namespace Kscrpr

/-- Model of `Tag` from `src/archives.rs`: a tag has a `path` slug and a display `name`. -/
structure Tag where
  path : String
  name : String
deriving DecidableEq, Repr, Inhabited

/-- Model of `Archive` from `src/archives.rs`.  `base_url`/`download_url` are kept as
plain strings; `id` is a `u32` modelled as `Nat` (bounds stated where they
matter). -/
structure Archive where
  id : Nat
  name : String
  artist : String
  parody : String
  tags : List Tag
  num_pages : Nat
  base_url : String
  download_url : String
deriving DecidableEq, Repr, Inhabited

/-- A filesystem path, as its list of components below the base directory. -/
abbrev FPath := List String

/-- A value stored in the sled record store: the CBOR blob either
deserializes back to an `Archive` (`good`) or is corrupt (out-of-band
damage), matching the two failure modes of `fetch_doc`. -/
inductive SledBlob where
  | good (a : Archive)
  | corrupt
deriving DecidableEq, Repr

/-- A tantivy index document as built by `Searcher::add_archive`
(`src/searcher.rs`): the numeric id plus the text fields; one `tag` entry per
archive tag (the tag's display name). -/
structure IndexDoc where
  id : Nat
  name : String
  artist : String
  parody : String
  tags : List String
deriving DecidableEq, Repr

/-- Big-endian `u32::to_be_bytes`, used by `FileSystem::add_archive` as the
sled key (`archive.id.to_be_bytes()`). -/
def to_be_bytes (n : Nat) : List Nat :=
  [n / 2 ^ 24 % 256, n / 2 ^ 16 % 256, n / 2 ^ 8 % 256, n % 256]

/-- The on-disk and in-store state owned by the `FileSystem` facade:
directories, symlinks (link path ↦ target path), regular files, the sled
record store (keyed by the 4-byte big-endian id) and the tantivy index
(its committed documents, in insertion order). -/
structure FSState where
  dirs : List FPath
  symlinks : List (FPath × FPath)
  files : List FPath
  sled : List (List Nat × SledBlob)
  index : List IndexDoc
deriving DecidableEq, Repr

/-- Model of `FileSystem::data_dir_of_id`: `data/by_ids/{id}/`. -/
def data_dir_of_id (id : Nat) : FPath :=
  ["data", "by_ids", toString id]

/-- Model of `FileSystem::data_dir_for_archive_by_tag`:
`data/by_tags/{tag}/{name}-{id}`. -/
def data_dir_for_archive_by_tag (tag : String) (a : Archive) : FPath :=
  ["data", "by_tags", tag, a.name ++ "-" ++ toString a.id]

/-- Model of `FileSystem::data_dir_for_archive_by_artist`:
`data/by_artist/{artist}/{name}-{id}`. -/
def data_dir_for_archive_by_artist (a : Archive) : FPath :=
  ["data", "by_artist", a.artist, a.name ++ "-" ++ toString a.id]

/-- Model of `FileSystem::rendered_file_of_id`: `rendered/by_ids/{id}.pdf`. -/
def rendered_file_of_id (id : Nat) : FPath :=
  ["rendered", "by_ids", toString id ++ ".pdf"]

/-- Model of `FileSystem::rendered_file_for_archive_by_tag`:
`rendered/by_tags/{tag}/{name}-{id}.pdf`. -/
def rendered_file_for_archive_by_tag (tag : String) (a : Archive) : FPath :=
  ["rendered", "by_tags", tag, a.name ++ "-" ++ toString a.id ++ ".pdf"]

/-- Model of `FileSystem::rendered_file_for_archive_by_artist`:
`rendered/by_artist/{artist}/{name}-{id}.pdf`. -/
def rendered_file_for_archive_by_artist (a : Archive) : FPath :=
  ["rendered", "by_artist", a.artist, a.name ++ "-" ++ toString a.id ++ ".pdf"]

/-- Model of `Path::exists`: the path is a directory, a symlink, or a file. -/
def pathExists (st : FSState) (p : FPath) : Prop :=
  p ∈ st.dirs ∨ p ∈ st.symlinks.map Prod.fst ∨ p ∈ st.files

instance (st : FSState) (p : FPath) : Decidable (pathExists st p) := by
  unfold pathExists; infer_instance

/-- Model of `std::fs::create_dir_all`: creates the directory, a no-op if the path
already exists.  (Creation of missing ancestors is not modelled; no claim
observes an ancestor directory.) -/
def create_dir_all (st : FSState) (p : FPath) : FSState :=
  if pathExists st p then st else { st with dirs := p :: st.dirs }

/-- Model of `symlink::symlink_dir` / `symlink::symlink_file`: creating a symlink at
`link` pointing to `target` fails (`EEXIST`) whenever `link` already exists —
even when the existing entry is a symlink to the same target. -/
def symlink_at (st : FSState) (target link : FPath) : Except String FSState :=
  if pathExists st link then .error "AlreadyExists"
  else .ok { st with symlinks := (link, target) :: st.symlinks }

/-- Model of `FileSystem::has_archive`: `data_dir_of_id(id).exists()`. -/
def has_archive (st : FSState) (id : Nat) : Prop :=
  pathExists st (data_dir_of_id id)

instance (st : FSState) (id : Nat) : Decidable (has_archive st id) := by
  unfold has_archive; infer_instance

/-- The tag loop of `FileSystem::build_data_symlinks_for`: for each tag,
create the parent directory and symlink the alias at the canonical
`target`; on the first error the already-made changes remain and the error
is returned (Rust `?`). -/
def linkTags (st : FSState) (target : FPath) (a : Archive) :
    List Tag → FSState × Option String
  | [] => (st, none)
  | t :: ts =>
    let tagDir := data_dir_for_archive_by_tag t.name a
    let st1 := create_dir_all st tagDir.dropLast
    match symlink_at st1 target tagDir with
    | .error e => (st1, some e)
    | .ok st2 => linkTags st2 target a ts

/-- Model of `FileSystem::build_data_symlinks_for` (`src/filesystem.rs` 171-191):
one tag alias per tag, then the artist alias, all symlinked at the
canonical `data_dir_of_id`; the first symlink error aborts (partial changes
remain) and is returned. -/
def build_data_symlinks_for (st : FSState) (a : Archive) :
    FSState × Option String :=
  let target := data_dir_of_id a.id
  match linkTags st target a a.tags with
  | (st1, some e) => (st1, some e)
  | (st1, none) =>
    let artistDir := data_dir_for_archive_by_artist a
    let st2 := create_dir_all st1 artistDir.dropLast
    match symlink_at st2 target artistDir with
    | .error e => (st2, some e)
    | .ok st3 => (st3, none)

/-- Model of `FileSystem::generate_pdf_for`: walks the canonical directory and writes
the PDF at `destination`.  Image decoding and PDF encoding are outside the
model, so success is an oracle `pdfOk`; on success the destination file is
created. -/
def generate_pdf_for (st : FSState) (destination : FPath) (pdfOk : Bool) :
    FSState × Option String :=
  if pdfOk then ({ st with files := destination :: st.files }, none)
  else (st, some "pdf generation failed")

/-- The tag loop of `FileSystem::render_archive`: symlink the rendered PDF
under each tag's rendered directory. -/
def renderTags (st : FSState) (targetFile : FPath) (a : Archive) :
    List Tag → FSState × Option String
  | [] => (st, none)
  | t :: ts =>
    let tagFile := rendered_file_for_archive_by_tag t.name a
    let st1 := create_dir_all st tagFile.dropLast
    match symlink_at st1 targetFile tagFile with
    | .error e => (st1, some e)
    | .ok st2 => renderTags st2 targetFile a ts

/-- Model of `FileSystem::render_archive` (`src/filesystem.rs` 270-298): generate the
per-id PDF if absent, then symlink it under each tag's and the artist's
rendered directory. -/
def render_archive (st : FSState) (a : Archive) (pdfOk : Bool) :
    FSState × Option String :=
  let targetFile := rendered_file_of_id a.id
  let step1 :=
    if pathExists st targetFile then (st, none)
    else
      let st1 := create_dir_all st targetFile.dropLast
      generate_pdf_for st1 targetFile pdfOk
  match step1 with
  | (st1, some e) => (st1, some e)
  | (st1, none) =>
    match renderTags st1 targetFile a a.tags with
    | (st2, some e) => (st2, some e)
    | (st2, none) =>
      let artistFile := rendered_file_for_archive_by_artist a
      let st3 := create_dir_all st2 artistFile.dropLast
      match symlink_at st3 targetFile artistFile with
      | .error e => (st3, some e)
      | .ok st4 => (st4, none)

/-- Model of `sled::Tree::insert`: upsert by key (sled keys are byte strings). -/
def sledInsert (key : List Nat) (v : SledBlob) :
    List (List Nat × SledBlob) → List (List Nat × SledBlob)
  | [] => [(key, v)]
  | (k', v') :: rest =>
    if k' = key then (key, v) :: rest else (k', v') :: sledInsert key v rest

/-- Model of `sled::Tree::get`: lookup by key. -/
def sledGet (key : List Nat) : List (List Nat × SledBlob) → Option SledBlob
  | [] => none
  | (k', v') :: rest => if k' = key then some v' else sledGet key rest

/-- Model of `Searcher::add_archive` (`src/searcher.rs` 41-67): the document built
from an archive (id, name, artist, parody, one `tag` text entry per tag). -/
def indexDocOf (a : Archive) : IndexDoc :=
  { id := a.id, name := a.name, artist := a.artist, parody := a.parody,
    tags := a.tags.map Tag.name }

/-- The searcher's `add_archive` appends the document and commits. -/
def searcherAdd (st : FSState) (a : Archive) : FSState :=
  { st with index := st.index ++ [indexDocOf a] }

/-- The tail of `FileSystem::add_archive` after a successful extraction
(`src/filesystem.rs` 239-267): build the data symlinks (error logged and
ignored, partial changes kept), render (error logged and ignored), insert
the record into sled under the big-endian id key, add the index document. -/
def commitState (st1 : FSState) (a : Archive) (pdfOk : Bool) : FSState :=
  let st2 := (build_data_symlinks_for st1 a).1
  let st3 := (render_archive st2 a pdfOk).1
  let st4 := { st3 with
    sled := sledInsert (to_be_bytes a.id) (.good a) st3.sled }
  searcherAdd st4 a

/-- Model of `FileSystem::add_archive` (`src/filesystem.rs` 193-268).  Oracles:
`dlOk` whether the network download succeeds (its error propagates, Rust
`?`), `extractOk` whether `zip.extract` succeeds (its error is logged and
the call returns `Ok(false)`), `pdfOk` whether PDF generation succeeds.
Dedup guard first; then the download; then the canonical directory is
created and the payload extracted into it; then `commitState`. -/
def add_archive (st : FSState) (a : Archive) (force : Bool)
    (dlOk extractOk pdfOk : Bool) : Except String (Bool × FSState) :=
  if force = false ∧ has_archive st a.id then .ok (false, st)
  else if dlOk = false then .error "download failed"
  else if extractOk = false then
    .ok (false, create_dir_all st (data_dir_of_id a.id))
  else
    .ok (true, commitState (create_dir_all st (data_dir_of_id a.id)) a pdfOk)

/-- A tantivy `TermQuery` on the `tag` field with
`Term::from_field_text(tag_field, t)`: matches a document iff the exact
term `t` occurs among its `tag` entries. -/
def termMatches (t : String) (d : IndexDoc) : Bool :=
  decide (t ∈ d.tags)

/-- A tantivy `BooleanQuery` whose clauses are all `Occur::Must`
(`Searcher::with_all_tags`, `src/searcher.rs` 77-89): a document matches iff
it satisfies every clause; the empty boolean query matches no documents
(tantivy semantics). -/
def mustClausesMatch (tags : List String) (d : IndexDoc) : Bool :=
  match tags with
  | [] => false
  | _ :: _ => tags.all (fun t => termMatches t d)

/-- Model of `Searcher::with_all_tags` (`src/searcher.rs` 69-103): run the boolean
must-query through the `DocSetCollector` and return the stored `id` of each
matching document. -/
def searcher_with_all_tags (index : List IndexDoc) (tags : List String) :
    List Nat :=
  (index.filter (fun d => mustClausesMatch tags d)).map IndexDoc.id

/-- Model of `FileSystem::fetch_doc` (`src/filesystem.rs` 394-402): sled lookup under
the big-endian id key, `NotFound` if absent, `Corrupt` if the CBOR blob does
not deserialize. -/
def fetch_doc (st : FSState) (id : Nat) : Except String Archive :=
  match sledGet (to_be_bytes id) st.sled with
  | none => .error "Document does not exist"
  | some .corrupt => .error "invalid cbor"
  | some (.good a) => .ok a

/-- Model of `FileSystem::fetch_inner` (`src/filesystem.rs` 380-392): fetch each id,
logging and dropping the ones whose fetch fails, keeping the rest in the
ids' order.  (The Rust function always returns `Ok`, so the model returns
the plain list.) -/
def fetch_inner (st : FSState) (doc_ids : List Nat) : List Archive :=
  doc_ids.filterMap (fun id =>
    match fetch_doc st id with
    | .ok a => some a
    | .error _ => none)

/-- Model of `FileSystem::with_all_tags` (`src/filesystem.rs` 347-358): searcher ids,
then `fetch_inner`. -/
def fs_with_all_tags (st : FSState) (tags : List String) : List Archive :=
  fetch_inner st (searcher_with_all_tags st.index tags)

/-- The documents matching a parsed query, with their relevance scores
(`id`, `score`).  The tantivy query parser and BM25 scorer are outside the
model: a parsed query is represented by the scoring function it induces,
`score d = some s` when document `d` matches with relevance `s` (tantivy
scores are `f32`; only their order matters here, so `Nat` is used). -/
def scoredDocs (index : List IndexDoc) (score : IndexDoc → Option Nat) :
    List (Nat × Nat) :=
  index.filterMap (fun d => (score d).map (fun s => (d.id, s)))

/-- One insertion step of sorting scored documents by descending score
(ties keep earlier documents first). -/
def insertScored (p : Nat × Nat) : List (Nat × Nat) → List (Nat × Nat)
  | [] => [p]
  | q :: rest =>
    if q.2 < p.2 then p :: q :: rest else q :: insertScored p rest

/-- All matching documents sorted by descending relevance score. -/
def sortByScoreDesc (l : List (Nat × Nat)) : List (Nat × Nat) :=
  l.foldr insertScored []

/-- tantivy's `TopDocs::with_limit(k)` collector: the `k` best-scoring
matching documents, in descending score order. -/
def topDocs (k : Nat) (l : List (Nat × Nat)) : List (Nat × Nat) :=
  (sortByScoreDesc l).take k

/-- Model of `Searcher::search` (`src/searcher.rs` 105-155): with a limit, collect
the top-`max` documents by score and return their ids; without a limit,
collect the whole matching doc set (`DocSetCollector`) and return the ids. -/
def searcher_search (index : List IndexDoc) (score : IndexDoc → Option Nat)
    (max : Option Nat) : List Nat :=
  match max with
  | some k => (topDocs k (scoredDocs index score)).map Prod.fst
  | none => (scoredDocs index score).map Prod.fst

/-- Strict lexicographic order on byte strings — the order in which sled
stores and iterates its keys. -/
def lexLtB : List Nat → List Nat → Bool
  | [], [] => false
  | [], _ :: _ => true
  | _ :: _, [] => false
  | a :: as, b :: bs => a < b || (a == b && lexLtB as bs)

/-- Sorted insertion of a sled entry by ascending byte-key order. -/
def insertByKey (e : List Nat × SledBlob) :
    List (List Nat × SledBlob) → List (List Nat × SledBlob)
  | [] => [e]
  | f :: rest =>
    if lexLtB e.1 f.1 then e :: f :: rest else f :: insertByKey e rest

/-- Model of `sled::Tree::iter` (as used by `do_reindex`, `src/command.rs` 107-123):
yields the store's entries in ascending byte order of their keys. -/
def sled_iter (store : List (List Nat × SledBlob)) :
    List (List Nat × SledBlob) :=
  store.foldr insertByKey []

/-- Decode a big-endian byte string back to the integer it encodes. -/
def fromBytes : List Nat → Nat
  | [] => 0
  | b :: rest => b * 256 ^ rest.length + fromBytes rest

/-- What the `FetchCommand::Id` branch prints after `add_archive`. -/
inductive FetchIdReport where
  | alreadyDownloaded
  | newlyAdded
deriving DecidableEq, Repr

/-- Translated from `FetchCommand::go`, `Id` branch (`src/command.rs`
234-243): `added` is the boolean returned by `add_archive`; when it is
`true` the program prints "Archive was already downloaded", otherwise it
prints "Added the following new archive" plus the name. -/
def fetch_id_report (added : Bool) : FetchIdReport :=
  if added then .alreadyDownloaded else .newlyAdded

/-- The alias paths `build_data_symlinks_for` attempts for a record: one per
tag, then the artist alias. -/
def aliasPaths (a : Archive) : List FPath :=
  a.tags.map (fun t => data_dir_for_archive_by_tag t.name a) ++
    [data_dir_for_archive_by_artist a]

/-- The record fetched for an id, defaulting when the fetch fails (used only
to state which record each surviving id contributes). -/
def fetchedOrDefault (st : FSState) (i : Nat) : Archive :=
  match fetch_doc st i with
  | .ok a => a
  | .error _ => default

/-- The empty base state: fresh data directory, empty store and index. -/
def emptyFS : FSState := ⟨[], [], [], [], []⟩

/-- Filesystem growth: every directory, symlink and file of `s` is still
present in `t` (the operations of the store only add on-disk entries). -/
def FSLe (s t : FSState) : Prop :=
  (∀ p ∈ s.dirs, p ∈ t.dirs) ∧ (∀ l ∈ s.symlinks, l ∈ t.symlinks) ∧
    (∀ p ∈ s.files, p ∈ t.files)

/-- Descending-score order between scored documents. -/
def scoreGe (x y : Nat × Nat) : Prop := y.2 ≤ x.2

/-- A step that only touches the filesystem: the on-disk entries grow and
the sled store and the index are untouched. -/
def FsOnly (s t : FSState) : Prop :=
  FSLe s t ∧ t.sled = s.sled ∧ t.index = s.index

/-- Index documents realizing the spec's tag-query example:
records `{1:[a,b]}`, `{2:[a]}`, `{3:[a,b,c]}`. -/
def docAB : IndexDoc :=
  { id := 1, name := "one", artist := "x", parody := "", tags := ["a", "b"] }

def docA : IndexDoc :=
  { id := 2, name := "two", artist := "x", parody := "", tags := ["a"] }

def docABC : IndexDoc :=
  { id := 3, name := "three", artist := "y", parody := "",
    tags := ["a", "b", "c"] }

/-- A one-tag archive used as concrete input for the link and ingestion
claims. -/
def exArchive : Archive :=
  { id := 7, name := "N", artist := "A", parody := "P",
    tags := [{ path := "t", name := "t" }], num_pages := 3,
    base_url := "u", download_url := "v" }

/-- A state in which `exArchive`'s tag alias already exists and already
points at the canonical per-id directory (the idempotent re-link
situation). -/
def relinkFS : FSState :=
  { dirs := [data_dir_of_id exArchive.id]
    symlinks := [(data_dir_for_archive_by_tag "t" exArchive,
                  data_dir_of_id exArchive.id)]
    files := []
    sled := []
    index := [] }

/-- A state in which `exArchive`'s tag alias path is occupied (by a plain
directory) while the canonical per-id directory does not exist, so
ingestion proceeds but alias building fails. -/
def aliasBlockedFS : FSState :=
  { dirs := [data_dir_for_archive_by_tag "t" exArchive]
    symlinks := []
    files := []
    sled := []
    index := [] }

lemma mustClausesMatch_nil (d : IndexDoc) : mustClausesMatch [] d = false :=
  rfl

lemma mustClausesMatch_iff (tags : List String) (d : IndexDoc)
    (h : tags ≠ []) :
    mustClausesMatch tags d = true ↔ ∀ t ∈ tags, t ∈ d.tags := by
  cases tags with
  | nil => exact absurd rfl h
  | cons t ts =>
    simp [mustClausesMatch, termMatches, List.all_eq_true]

/-- Claim C10: calling `with_all_tags` with an empty tag set returns the
empty id sequence whatever the index contains — the boolean query built
from zero `Must` clauses matches no documents. -/
theorem with_all_tags_empty_query (index : List IndexDoc) :
    searcher_with_all_tags index [] = [] := by
  simp [searcher_with_all_tags, mustClausesMatch_nil]

/-- Claim C3, counterexample: with the store containing the record with id 1
and tags `[a, b]`, the empty query returns nothing even though that record's
tag set is a superset of the empty set — so "for every set of query tags T,
`with_all_tags` returns exactly the ids whose tag set is a superset of T"
fails at `T = {}`. -/
theorem with_all_tags_empty_set_counterexample :
    ¬ ((1 : Nat) ∈ searcher_with_all_tags [docAB] [] ↔
        ∃ d ∈ [docAB], d.id = 1 ∧ ∀ t ∈ ([] : List String), t ∈ d.tags) := by
  decide

/-- Claim C3 (amended): for every nonempty set of query tags `tags`,
`with_all_tags` returns exactly the ids of indexed records whose tag set is
a superset of `tags` (boolean AND over exact-match tag terms), membership
stated without order. -/
theorem with_all_tags_superset (index : List IndexDoc) (tags : List String)
    (h : tags ≠ []) (i : Nat) :
    i ∈ searcher_with_all_tags index tags ↔
      ∃ d ∈ index, d.id = i ∧ ∀ t ∈ tags, t ∈ d.tags := by
  simp only [searcher_with_all_tags, List.mem_map, List.mem_filter]
  constructor
  · rintro ⟨d, ⟨hd, hm⟩, rfl⟩
    exact ⟨d, hd, rfl, (mustClausesMatch_iff tags d h).1 hm⟩
  · rintro ⟨d, hd, rfl, hall⟩
    exact ⟨d, ⟨hd, (mustClausesMatch_iff tags d h).2 hall⟩, rfl⟩

/-- Witness for the amended C3, at the spec's own example corpus
`{1:[a,b]}, {2:[a]}, {3:[a,b,c]}` with query `{a,b}` and id 3. -/
theorem with_all_tags_superset_witness :
    (3 : Nat) ∈ searcher_with_all_tags [docAB, docA, docABC] ["a", "b"] ↔
      ∃ d ∈ [docAB, docA, docABC], d.id = 3 ∧
        ∀ t ∈ (["a", "b"] : List String), t ∈ d.tags :=
  with_all_tags_superset [docAB, docA, docABC] ["a", "b"] (by decide) 3

/-- Claim C6: for every id list produced by the index, `fetch_inner` drops
exactly the ids whose record-store fetch fails and returns, in the list's
order, one record (the fetched one) per surviving id; it never fails the
whole result. -/
theorem fetch_inner_drops_failed_ids (st : FSState) (ids : List Nat) :
    fetch_inner st ids =
      (ids.filter fun i => (fetch_doc st i).isOk).map (fetchedOrDefault st) := by
  induction ids with
  | nil => rfl
  | cons i rest ih =>
    unfold fetch_inner at ih ⊢
    cases h : fetch_doc st i with
    | ok a =>
      simp [List.filterMap_cons, List.filter_cons, h, Except.isOk,
        Except.toBool, fetchedOrDefault, ih]
    | error e =>
      simp [List.filterMap_cons, List.filter_cons, h, Except.isOk,
        Except.toBool, fetchedOrDefault, ih]

/-- Claim C9: evaluating the `fetch id` report at both outcomes of
`add_archive`: the code prints "Archive was already downloaded" when
`add_archive` returned `true` (newly added) and "Added the following new
archive" when it returned `false` (skipped) — the two reports are
swapped relative to the claim. -/
theorem fetch_id_report_swapped :
    fetch_id_report true = FetchIdReport.alreadyDownloaded ∧
    fetch_id_report false = FetchIdReport.newlyAdded :=
  ⟨rfl, rfl⟩

lemma fsle_refl (s : FSState) : FSLe s s :=
  ⟨fun _ h => h, fun _ h => h, fun _ h => h⟩

lemma fsle_trans {s t u : FSState} (h1 : FSLe s t) (h2 : FSLe t u) :
    FSLe s u :=
  ⟨fun p hp => h2.1 p (h1.1 p hp), fun l hl => h2.2.1 l (h1.2.1 l hl),
    fun p hp => h2.2.2 p (h1.2.2 p hp)⟩

lemma pathExists_mono {s t : FSState} (h : FSLe s t) {p : FPath}
    (hp : pathExists s p) : pathExists t p := by
  unfold pathExists at hp ⊢
  rcases hp with hd | hs | hf
  · exact Or.inl (h.1 p hd)
  · rcases List.mem_map.1 hs with ⟨l, hl, rfl⟩
    exact Or.inr (Or.inl (List.mem_map.2 ⟨l, h.2.1 l hl, rfl⟩))
  · exact Or.inr (Or.inr (h.2.2 p hf))

lemma fsonly_refl (s : FSState) : FsOnly s s := ⟨fsle_refl s, rfl, rfl⟩

lemma fsonly_trans {s t u : FSState} (h1 : FsOnly s t) (h2 : FsOnly t u) :
    FsOnly s u :=
  ⟨fsle_trans h1.1 h2.1, by rw [h2.2.1, h1.2.1], by rw [h2.2.2, h1.2.2]⟩

lemma fsonly_create_dir_all (s : FSState) (p : FPath) :
    FsOnly s (create_dir_all s p) := by
  unfold create_dir_all; split
  · exact fsonly_refl s
  · exact ⟨⟨fun q hq => List.mem_cons_of_mem _ hq, fun l hl => hl,
      fun q hq => hq⟩, rfl, rfl⟩

lemma pathExists_create_dir_all_self (s : FSState) (p : FPath) :
    pathExists (create_dir_all s p) p := by
  unfold create_dir_all; split
  · assumption
  · exact Or.inl (List.mem_cons_self p _)

lemma fsonly_symlink_at {s t : FSState} {target link : FPath}
    (h : symlink_at s target link = .ok t) : FsOnly s t := by
  unfold symlink_at at h
  split at h
  · exact absurd h (by simp)
  · simp only [Except.ok.injEq] at h
    subst h
    exact ⟨⟨fun q hq => hq, fun l hl => List.mem_cons_of_mem _ hl,
      fun q hq => hq⟩, rfl, rfl⟩

lemma fsonly_linkTags (ts : List Tag) :
    ∀ (s : FSState) (target : FPath) (a : Archive),
      FsOnly s (linkTags s target a ts).1 := by
  induction ts with
  | nil => intro s target a; exact fsonly_refl s
  | cons t ts ih =>
    intro s target a
    simp only [linkTags]
    cases h : symlink_at
        (create_dir_all s (data_dir_for_archive_by_tag t.name a).dropLast)
        target (data_dir_for_archive_by_tag t.name a) with
    | error e => exact fsonly_create_dir_all s _
    | ok st2 =>
      exact fsonly_trans
        (fsonly_trans (fsonly_create_dir_all s _) (fsonly_symlink_at h))
        (ih st2 target a)

lemma fsonly_build (s : FSState) (a : Archive) :
    FsOnly s (build_data_symlinks_for s a).1 := by
  have hlt := fsonly_linkTags a.tags s (data_dir_of_id a.id) a
  simp only [build_data_symlinks_for]
  cases h : linkTags s (data_dir_of_id a.id) a a.tags with
  | mk st1 o =>
    rw [h] at hlt
    cases o with
    | some e => exact hlt
    | none =>
      dsimp only
      cases h2 : symlink_at
          (create_dir_all st1 (data_dir_for_archive_by_artist a).dropLast)
          (data_dir_of_id a.id) (data_dir_for_archive_by_artist a) with
      | error e =>
        exact fsonly_trans hlt (fsonly_create_dir_all st1 _)
      | ok st3 =>
        exact fsonly_trans hlt
          (fsonly_trans (fsonly_create_dir_all st1 _) (fsonly_symlink_at h2))

lemma fsonly_generate_pdf (s : FSState) (dest : FPath) (ok : Bool) :
    FsOnly s (generate_pdf_for s dest ok).1 := by
  unfold generate_pdf_for; split
  · exact ⟨⟨fun q hq => hq, fun l hl => hl,
      fun q hq => List.mem_cons_of_mem _ hq⟩, rfl, rfl⟩
  · exact fsonly_refl s

lemma fsonly_renderTags (ts : List Tag) :
    ∀ (s : FSState) (targetFile : FPath) (a : Archive),
      FsOnly s (renderTags s targetFile a ts).1 := by
  induction ts with
  | nil => intro s targetFile a; exact fsonly_refl s
  | cons t ts ih =>
    intro s targetFile a
    simp only [renderTags]
    cases h : symlink_at
        (create_dir_all s (rendered_file_for_archive_by_tag t.name a).dropLast)
        targetFile (rendered_file_for_archive_by_tag t.name a) with
    | error e => exact fsonly_create_dir_all s _
    | ok st2 =>
      exact fsonly_trans
        (fsonly_trans (fsonly_create_dir_all s _) (fsonly_symlink_at h))
        (ih st2 targetFile a)

lemma fsonly_render (s : FSState) (a : Archive) (pdf : Bool) :
    FsOnly s (render_archive s a pdf).1 := by
  simp only [render_archive]
  by_cases hp : pathExists s (rendered_file_of_id a.id)
  · rw [if_pos hp]
    have hrt := fsonly_renderTags a.tags s (rendered_file_of_id a.id) a
    dsimp only
    cases h1 : renderTags s (rendered_file_of_id a.id) a a.tags with
    | mk st2 o =>
      rw [h1] at hrt
      cases o with
      | some e => exact hrt
      | none =>
        dsimp only
        cases h2 : symlink_at
            (create_dir_all st2
              (rendered_file_for_archive_by_artist a).dropLast)
            (rendered_file_of_id a.id)
            (rendered_file_for_archive_by_artist a) with
        | error e => exact fsonly_trans hrt (fsonly_create_dir_all st2 _)
        | ok st4 =>
          exact fsonly_trans hrt
            (fsonly_trans (fsonly_create_dir_all st2 _)
              (fsonly_symlink_at h2))
  · rw [if_neg hp]
    have hg : FsOnly s
        (generate_pdf_for (create_dir_all s (rendered_file_of_id a.id).dropLast)
          (rendered_file_of_id a.id) pdf).1 :=
      fsonly_trans (fsonly_create_dir_all s _) (fsonly_generate_pdf _ _ _)
    cases h0 : generate_pdf_for
        (create_dir_all s (rendered_file_of_id a.id).dropLast)
        (rendered_file_of_id a.id) pdf with
    | mk stg og =>
      rw [h0] at hg
      cases og with
      | some e => exact hg
      | none =>
        dsimp only
        have hrt := fsonly_renderTags a.tags stg (rendered_file_of_id a.id) a
        cases h1 : renderTags stg (rendered_file_of_id a.id) a a.tags with
        | mk st2 o =>
          rw [h1] at hrt
          cases o with
          | some e => exact fsonly_trans hg hrt
          | none =>
            dsimp only
            cases h2 : symlink_at
                (create_dir_all st2
                  (rendered_file_for_archive_by_artist a).dropLast)
                (rendered_file_of_id a.id)
                (rendered_file_for_archive_by_artist a) with
            | error e =>
              exact fsonly_trans hg
                (fsonly_trans hrt (fsonly_create_dir_all st2 _))
            | ok st4 =>
              exact fsonly_trans hg (fsonly_trans hrt
                (fsonly_trans (fsonly_create_dir_all st2 _)
                  (fsonly_symlink_at h2)))

lemma commitState_spec (st1 : FSState) (a : Archive) (pdf : Bool) :
    (∀ p, pathExists st1 p → pathExists (commitState st1 a pdf) p) ∧
    (commitState st1 a pdf).sled =
      sledInsert (to_be_bytes a.id) (.good a) st1.sled ∧
    (commitState st1 a pdf).index = st1.index ++ [indexDocOf a] := by
  have h23 : FsOnly st1 (render_archive (build_data_symlinks_for st1 a).1 a pdf).1 :=
    fsonly_trans (fsonly_build st1 a) (fsonly_render _ a pdf)
  refine ⟨?_, ?_, ?_⟩
  · intro p hp
    have h4 : FSLe (render_archive (build_data_symlinks_for st1 a).1 a pdf).1
        (commitState st1 a pdf) :=
      ⟨fun q hq => hq, fun l hl => hl, fun q hq => hq⟩
    exact pathExists_mono h4 (pathExists_mono h23.1 hp)
  · have h5 : (commitState st1 a pdf).sled =
        sledInsert (to_be_bytes a.id) (.good a)
          (render_archive (build_data_symlinks_for st1 a).1 a pdf).1.sled := rfl
    rw [h5, h23.2.1]
  · have h6 : (commitState st1 a pdf).index =
        (render_archive (build_data_symlinks_for st1 a).1 a pdf).1.index ++
          [indexDocOf a] := rfl
    rw [h6, h23.2.2]

lemma sledGet_sledInsert_self (key : List Nat) (v : SledBlob)
    (s : List (List Nat × SledBlob)) :
    sledGet key (sledInsert key v s) = some v := by
  induction s with
  | nil => simp [sledInsert, sledGet]
  | cons e rest ih =>
    obtain ⟨k', v'⟩ := e
    by_cases h : k' = key
    · simp [sledInsert, sledGet, h]
    · simp [sledInsert, sledGet, h, ih]

/-- Claim C1: with `force` unset, `add_archive` skips exactly the ids whose
canonical unit already exists: the skip returns `false` with the whole
state (record store, index, on-disk units) unchanged, for every download
outcome (nothing is downloaded); when the id is absent, or `force` is set,
the download is attempted; and after a successful ingestion any later
unforced call for the same id skips with the state unchanged, so ingesting
the same id twice without `force` never creates a second canonical unit,
record-store entry or index document. -/
theorem add_archive_dedup (st : FSState) (a : Archive) :
    (∀ dl ex pdf, has_archive st a.id →
        add_archive st a false dl ex pdf = .ok (false, st)) ∧
    (∀ ex pdf, ¬ has_archive st a.id →
        add_archive st a false false ex pdf = .error "download failed") ∧
    (∀ ex pdf,
        add_archive st a true false ex pdf = .error "download failed") ∧
    (∀ force dl ex pdf st',
        add_archive st a force dl ex pdf = .ok (true, st') →
        ∀ dl' ex' pdf',
          add_archive st' a false dl' ex' pdf' = .ok (false, st')) := by
  refine ⟨?_, ?_, ?_, ?_⟩
  · intro dl ex pdf h
    unfold add_archive
    rw [if_pos ⟨rfl, h⟩]
  · intro ex pdf h
    unfold add_archive
    rw [if_neg (fun hc => h hc.2), if_pos rfl]
  · intro ex pdf
    unfold add_archive
    rw [if_neg (fun hc => Bool.noConfusion hc.1), if_pos rfl]
  · intro force dl ex pdf st' h dl' ex' pdf'
    unfold add_archive at h
    by_cases h1 : force = false ∧ has_archive st a.id
    · rw [if_pos h1] at h; simp at h
    · rw [if_neg h1] at h
      by_cases h2 : dl = false
      · rw [if_pos h2] at h; simp at h
      · rw [if_neg h2] at h
        by_cases h3 : ex = false
        · rw [if_pos h3] at h; simp at h
        · rw [if_neg h3] at h
          simp only [Except.ok.injEq, Prod.mk.injEq, true_and] at h
          subst h
          have hhas : has_archive
              (commitState (create_dir_all st (data_dir_of_id a.id)) a pdf)
              a.id :=
            (commitState_spec _ a pdf).1 _
              (pathExists_create_dir_all_self st _)
          unfold add_archive
          rw [if_pos ⟨rfl, hhas⟩]

/-- Witness for C1: a skip on a state already holding the unit, a download
error when the unit is absent or when forced, and a skip right after a
successful ingestion into the empty store. -/
theorem add_archive_dedup_witness :
    add_archive relinkFS exArchive false true true true =
      .ok (false, relinkFS) ∧
    add_archive emptyFS exArchive false false true true =
      .error "download failed" ∧
    add_archive emptyFS exArchive true false true true =
      .error "download failed" ∧
    add_archive
        (commitState (create_dir_all emptyFS (data_dir_of_id exArchive.id))
          exArchive true) exArchive false true true true =
      .ok (false,
        commitState (create_dir_all emptyFS (data_dir_of_id exArchive.id))
          exArchive true) := by
  refine ⟨(add_archive_dedup relinkFS exArchive).1 true true true (by decide),
    (add_archive_dedup emptyFS exArchive).2.1 true true (by decide),
    (add_archive_dedup emptyFS exArchive).2.2.1 true true,
    (add_archive_dedup emptyFS exArchive).2.2.2 false true true true _ ?_
      true true true⟩
  rfl

/-- Claim C4: when zip extraction fails, `add_archive` returns `Ok(false)`
(not an error) and neither a record-store entry nor an index document is
written for the item. -/
theorem add_archive_extract_failure (st : FSState) (a : Archive)
    (force pdf : Bool) (h : ¬ (force = false ∧ has_archive st a.id)) :
    ∃ st', add_archive st a force true false pdf = .ok (false, st') ∧
      st'.sled = st.sled ∧ st'.index = st.index := by
  refine ⟨create_dir_all st (data_dir_of_id a.id), ?_,
    (fsonly_create_dir_all st _).2.1, (fsonly_create_dir_all st _).2.2⟩
  unfold add_archive
  rw [if_neg h, if_neg (fun hc => Bool.noConfusion hc), if_pos rfl]

/-- Witness for C4: a failing extraction over the empty store. -/
theorem add_archive_extract_failure_witness :
    ∃ st', add_archive emptyFS exArchive false true false true =
      .ok (false, st') ∧
      st'.sled = emptyFS.sled ∧ st'.index = emptyFS.index :=
  add_archive_extract_failure emptyFS exArchive false true (by decide)

/-- Claim C5: when alias building fails during an otherwise successful
ingestion, the commit is not rolled back: the call still returns `Ok(true)`,
the record is in the record store and the index document is appended. -/
theorem add_archive_link_failure_still_commits (st : FSState) (a : Archive)
    (force pdf : Bool) (hguard : ¬ (force = false ∧ has_archive st a.id))
    (hlink : (build_data_symlinks_for
        (create_dir_all st (data_dir_of_id a.id)) a).2 ≠ none) :
    ∃ st', add_archive st a force true true pdf = .ok (true, st') ∧
      sledGet (to_be_bytes a.id) st'.sled = some (.good a) ∧
      st'.index = st.index ++ [indexDocOf a] := by
  refine ⟨commitState (create_dir_all st (data_dir_of_id a.id)) a pdf,
    ?_, ?_, ?_⟩
  · unfold add_archive
    rw [if_neg hguard, if_neg (fun hc => Bool.noConfusion hc),
      if_neg (fun hc => Bool.noConfusion hc)]
  · rw [(commitState_spec _ a pdf).2.1]
    exact sledGet_sledInsert_self _ _ _
  · rw [(commitState_spec _ a pdf).2.2, (fsonly_create_dir_all st _).2.2]

lemma insertScored_perm (p : Nat × Nat) (l : List (Nat × Nat)) :
    List.Perm (insertScored p l) (p :: l) := by
  induction l with
  | nil => exact List.Perm.refl _
  | cons q rest ih =>
    unfold insertScored
    split
    · exact List.Perm.refl _
    · exact ((ih.cons q).trans (List.Perm.swap p q rest))

lemma insertScored_sorted (p : Nat × Nat) (l : List (Nat × Nat))
    (h : l.Sorted scoreGe) : (insertScored p l).Sorted scoreGe := by
  induction l with
  | nil => simp [insertScored, scoreGe]
  | cons q rest ih =>
    rw [List.sorted_cons] at h
    unfold insertScored
    split
    · rename_i hlt
      rw [List.sorted_cons]
      refine ⟨?_, List.sorted_cons.2 h⟩
      intro b hb
      rcases List.mem_cons.1 hb with rfl | hb
      · exact Nat.le_of_lt hlt
      · exact Nat.le_trans (h.1 b hb) (Nat.le_of_lt hlt)
    · rename_i hge
      rw [List.sorted_cons]
      refine ⟨?_, ih h.2⟩
      intro b hb
      rcases List.mem_cons.1 ((insertScored_perm p rest).mem_iff.1 hb)
          with rfl | hb
      · exact Nat.le_of_not_lt hge
      · exact h.1 b hb

lemma sortByScoreDesc_sorted (l : List (Nat × Nat)) :
    (sortByScoreDesc l).Sorted scoreGe := by
  induction l with
  | nil => simp [sortByScoreDesc]
  | cons p rest ih => exact insertScored_sorted p _ ih

lemma sortByScoreDesc_perm (l : List (Nat × Nat)) :
    List.Perm (sortByScoreDesc l) l := by
  induction l with
  | nil => exact List.Perm.refl _
  | cons p rest ih => exact (insertScored_perm p _).trans (ih.cons p)

/-- Claim C7: with a limit `k`, `search` returns the ids of at most `k`
documents, namely the top-`k` matching documents in descending relevance
order (no unselected match outscores a selected one); without a limit it
returns the ids of exactly the matching documents. -/
theorem search_limit_semantics (index : List IndexDoc)
    (score : IndexDoc → Option Nat) (k : Nat) :
    searcher_search index score (some k) =
      (topDocs k (scoredDocs index score)).map Prod.fst ∧
    (searcher_search index score (some k)).length ≤ k ∧
    (topDocs k (scoredDocs index score)).Sorted scoreGe ∧
    (∃ rest,
      (topDocs k (scoredDocs index score) ++ rest).Perm
        (scoredDocs index score) ∧
      ∀ x ∈ topDocs k (scoredDocs index score), ∀ y ∈ rest, y.2 ≤ x.2) ∧
    (∀ i, i ∈ searcher_search index score none ↔
      ∃ d ∈ index, d.id = i ∧ (score d).isSome) := by
  refine ⟨rfl, ?_, ?_, ?_, ?_⟩
  · simp only [searcher_search, topDocs, List.length_map, List.length_take]
    exact Nat.min_le_left _ _
  · exact List.Pairwise.sublist (List.take_sublist _ _)
      (sortByScoreDesc_sorted _)
  · refine ⟨(sortByScoreDesc (scoredDocs index score)).drop k, ?_, ?_⟩
    · rw [topDocs, List.take_append_drop]
      exact sortByScoreDesc_perm _
    · intro x hx y hy
      have hs := sortByScoreDesc_sorted (scoredDocs index score)
      rw [← List.take_append_drop k
        (sortByScoreDesc (scoredDocs index score))] at hs
      exact (List.pairwise_append.1 hs).2.2 x hx y hy
  · intro i
    simp only [searcher_search, scoredDocs, List.mem_map, List.mem_filterMap,
      Option.map_eq_some', Option.isSome_iff_exists]
    constructor
    · rintro ⟨x, ⟨d, hd, s, hs, rfl⟩, h1⟩
      exact ⟨d, hd, h1, s, hs⟩
    · rintro ⟨d, hd, rfl, s, hs⟩
      exact ⟨(d.id, s), ⟨d, hd, s, hs, rfl⟩, rfl⟩

lemma pathExists_create_dir_all_iff (s : FSState) (p q : FPath) :
    pathExists (create_dir_all s q) p ↔ pathExists s p ∨ p = q := by
  unfold create_dir_all
  by_cases h : pathExists s q
  · rw [if_pos h]
    constructor
    · exact Or.inl
    · rintro (hp | rfl)
      · exact hp
      · exact h
  · rw [if_neg h]
    unfold pathExists
    dsimp only
    simp only [List.mem_cons]
    constructor
    · rintro ((rfl | hd) | hs | hf)
      · exact Or.inr rfl
      · exact Or.inl (Or.inl hd)
      · exact Or.inl (Or.inr (Or.inl hs))
      · exact Or.inl (Or.inr (Or.inr hf))
    · rintro (hp | rfl)
      · rcases hp with hd | hs | hf
        · exact Or.inl (Or.inr hd)
        · exact Or.inr (Or.inl hs)
        · exact Or.inr (Or.inr hf)
      · exact Or.inl (Or.inl rfl)

lemma symlink_at_cases (s : FSState) (target link : FPath) :
    (pathExists s link ∧ symlink_at s target link = .error "AlreadyExists") ∨
    (¬ pathExists s link ∧ symlink_at s target link =
      .ok { s with symlinks := (link, target) :: s.symlinks }) := by
  unfold symlink_at
  by_cases h : pathExists s link
  · exact Or.inl ⟨h, by rw [if_pos h]⟩
  · exact Or.inr ⟨h, by rw [if_neg h]⟩

lemma pathExists_symlink_ok {s t : FSState} {target link : FPath}
    (h : symlink_at s target link = .ok t) (p : FPath) :
    pathExists t p ↔ pathExists s p ∨ p = link := by
  unfold symlink_at at h
  split at h
  · exact absurd h (by simp)
  · simp only [Except.ok.injEq] at h
    subst h
    unfold pathExists
    dsimp only
    simp only [List.map_cons, List.mem_cons]
    constructor
    · rintro (hd | (rfl | hs) | hf)
      · exact Or.inl (Or.inl hd)
      · exact Or.inr rfl
      · exact Or.inl (Or.inr (Or.inl hs))
      · exact Or.inl (Or.inr (Or.inr hf))
    · rintro ((hd | hs | hf) | rfl)
      · exact Or.inl hd
      · exact Or.inr (Or.inl (Or.inr hs))
      · exact Or.inr (Or.inr hf)
      · exact Or.inr (Or.inl (Or.inl rfl))

lemma tag_alias_ne_dropLast (t : String) (a : Archive) (u : String) :
    data_dir_for_archive_by_tag t a ≠
      (data_dir_for_archive_by_tag u a).dropLast := by
  intro h
  have := congrArg List.length h
  simp [data_dir_for_archive_by_tag] at this

lemma artist_alias_ne_dropLast_tag (a : Archive) (u : String) :
    data_dir_for_archive_by_artist a ≠
      (data_dir_for_archive_by_tag u a).dropLast := by
  intro h
  have := congrArg List.length h
  simp [data_dir_for_archive_by_artist, data_dir_for_archive_by_tag] at this

lemma artist_alias_ne_dropLast_artist (a : Archive) :
    data_dir_for_archive_by_artist a ≠
      (data_dir_for_archive_by_artist a).dropLast := by
  intro h
  have := congrArg List.length h
  simp [data_dir_for_archive_by_artist] at this

lemma linkTags_fails (ts : List Tag) :
    ∀ (s : FSState) (target : FPath) (a : Archive),
      (∃ t ∈ ts, pathExists s (data_dir_for_archive_by_tag t.name a)) →
      (linkTags s target a ts).2 ≠ none := by
  induction ts with
  | nil =>
    rintro s target a ⟨t, ht, _⟩
    simp at ht
  | cons t ts ih =>
    rintro s target a ⟨t', ht', hex⟩
    simp only [linkTags]
    rcases symlink_at_cases
        (create_dir_all s (data_dir_for_archive_by_tag t.name a).dropLast)
        target (data_dir_for_archive_by_tag t.name a) with
      ⟨hE, heq⟩ | ⟨hN, heq⟩
    · rw [heq]
      simp
    · rw [heq]
      dsimp only
      rcases List.mem_cons.1 ht' with rfl | hmem
      · exact absurd
          (pathExists_mono (fsonly_create_dir_all s _).1 hex) hN
      · refine ih _ target a ⟨t', hmem, ?_⟩
        exact pathExists_mono (fsonly_symlink_at heq).1
          (pathExists_mono (fsonly_create_dir_all s _).1 hex)

lemma pathExists_linkTags_sources (ts : List Tag) :
    ∀ (s : FSState) (target : FPath) (a : Archive) (p : FPath),
      pathExists (linkTags s target a ts).1 p →
      pathExists s p ∨ ∃ t ∈ ts,
        p = data_dir_for_archive_by_tag t.name a ∨
        p = (data_dir_for_archive_by_tag t.name a).dropLast := by
  induction ts with
  | nil => intro s target a p h; exact Or.inl h
  | cons t ts ih =>
    intro s target a p h
    simp only [linkTags] at h
    rcases symlink_at_cases
        (create_dir_all s (data_dir_for_archive_by_tag t.name a).dropLast)
        target (data_dir_for_archive_by_tag t.name a) with
      ⟨hE, heq⟩ | ⟨hN, heq⟩
    · rw [heq] at h
      dsimp only at h
      rcases (pathExists_create_dir_all_iff s p _).1 h with hp | rfl
      · exact Or.inl hp
      · exact Or.inr ⟨t, List.mem_cons_self t ts, Or.inr rfl⟩
    · rw [heq] at h
      dsimp only at h
      rcases ih _ target a p h with hp2 | ⟨t', ht', hor⟩
      · rcases (pathExists_symlink_ok heq p).1 hp2 with hcp | rfl
        · rcases (pathExists_create_dir_all_iff s p _).1 hcp with hp | rfl
          · exact Or.inl hp
          · exact Or.inr ⟨t, List.mem_cons_self t ts, Or.inr rfl⟩
        · exact Or.inr ⟨t, List.mem_cons_self t ts, Or.inl rfl⟩
      · exact Or.inr ⟨t', List.mem_cons_of_mem t ht', hor⟩

lemma linkTags_ok (ts : List Tag) :
    ∀ (s : FSState) (target : FPath) (a : Archive),
      (∀ t ∈ ts, ¬ pathExists s (data_dir_for_archive_by_tag t.name a)) →
      (ts.map fun t => data_dir_for_archive_by_tag t.name a).Nodup →
      (linkTags s target a ts).2 = none ∧
      ∀ t ∈ ts, (data_dir_for_archive_by_tag t.name a, target) ∈
        (linkTags s target a ts).1.symlinks := by
  induction ts with
  | nil => intro s target a _ _; exact ⟨rfl, by simp⟩
  | cons t ts ih =>
    intro s target a hfresh hnodup
    simp only [linkTags]
    have hfresh1 : ¬ pathExists
        (create_dir_all s (data_dir_for_archive_by_tag t.name a).dropLast)
        (data_dir_for_archive_by_tag t.name a) := by
      rw [pathExists_create_dir_all_iff]
      rintro (hp | heq)
      · exact hfresh t (List.mem_cons_self t ts) hp
      · exact tag_alias_ne_dropLast t.name a t.name heq
    rcases symlink_at_cases
        (create_dir_all s (data_dir_for_archive_by_tag t.name a).dropLast)
        target (data_dir_for_archive_by_tag t.name a) with
      ⟨hE, _⟩ | ⟨_, heq⟩
    · exact absurd hE hfresh1
    · rw [heq]
      dsimp only
      rw [List.map_cons, List.nodup_cons] at hnodup
      have hfresh2 : ∀ t' ∈ ts, ¬ pathExists
          { create_dir_all s
              (data_dir_for_archive_by_tag t.name a).dropLast with
            symlinks := (data_dir_for_archive_by_tag t.name a, target) ::
              (create_dir_all s
                (data_dir_for_archive_by_tag t.name a).dropLast).symlinks }
          (data_dir_for_archive_by_tag t'.name a) := by
        intro t' ht'
        rw [pathExists_symlink_ok heq]
        rintro (hp | heq2)
        · rcases (pathExists_create_dir_all_iff s _ _).1 hp with hp2 | heq3
          · exact hfresh t' (List.mem_cons_of_mem t ht') hp2
          · exact tag_alias_ne_dropLast t'.name a t.name heq3
        · exact hnodup.1 (heq2 ▸ List.mem_map.2 ⟨t', ht', rfl⟩)
      have htail := ih _ target a hfresh2 hnodup.2
      refine ⟨htail.1, ?_⟩
      intro t' ht'
      rcases List.mem_cons.1 ht' with rfl | hmem
      · exact (fsonly_linkTags ts _ target a).1.2.1 _
          (List.mem_cons_self _ _)
      · exact htail.2 t' hmem

lemma build_fails (s : FSState) (a : Archive)
    (h : ∃ p ∈ aliasPaths a, pathExists s p) :
    (build_data_symlinks_for s a).2 ≠ none := by
  rcases h with ⟨p, hp, hex⟩
  rcases List.mem_append.1 hp with htag | hart
  · rcases List.mem_map.1 htag with ⟨t, ht, rfl⟩
    have hf := linkTags_fails a.tags s (data_dir_of_id a.id) a ⟨t, ht, hex⟩
    simp only [build_data_symlinks_for]
    cases hlt : linkTags s (data_dir_of_id a.id) a a.tags with
    | mk st1 o =>
      rw [hlt] at hf
      cases o with
      | some e => simp
      | none => exact absurd rfl hf
  · rw [List.mem_singleton] at hart
    subst hart
    simp only [build_data_symlinks_for]
    cases hlt : linkTags s (data_dir_of_id a.id) a a.tags with
    | mk st1 o =>
      cases o with
      | some e => simp
      | none =>
        dsimp only
        have hex1 : pathExists st1 (data_dir_for_archive_by_artist a) := by
          have := pathExists_mono (fsonly_linkTags a.tags s
            (data_dir_of_id a.id) a).1 hex
          rw [hlt] at this
          exact this
        have hex2 : pathExists
            (create_dir_all st1 (data_dir_for_archive_by_artist a).dropLast)
            (data_dir_for_archive_by_artist a) :=
          pathExists_mono (fsonly_create_dir_all st1 _).1 hex1
        rcases symlink_at_cases
            (create_dir_all st1 (data_dir_for_archive_by_artist a).dropLast)
            (data_dir_of_id a.id) (data_dir_for_archive_by_artist a) with
          ⟨hE, heq⟩ | ⟨hN, heq⟩
        · rw [heq]
          simp
        · exact absurd hex2 hN

lemma build_ok (s : FSState) (a : Archive)
    (hfresh : ∀ p ∈ aliasPaths a, ¬ pathExists s p)
    (hnodup : (aliasPaths a).Nodup) :
    (build_data_symlinks_for s a).2 = none ∧
    ∀ p ∈ aliasPaths a, (p, data_dir_of_id a.id) ∈
      (build_data_symlinks_for s a).1.symlinks := by
  have htags_fresh : ∀ t ∈ a.tags,
      ¬ pathExists s (data_dir_for_archive_by_tag t.name a) := fun t ht =>
    hfresh _ (List.mem_append.2 (Or.inl (List.mem_map.2 ⟨t, ht, rfl⟩)))
  have hsplit := List.nodup_append.1 hnodup
  have hlt := linkTags_ok a.tags s (data_dir_of_id a.id) a htags_fresh
    hsplit.1
  simp only [build_data_symlinks_for]
  cases heq : linkTags s (data_dir_of_id a.id) a a.tags with
  | mk st1 o =>
    rw [heq] at hlt
    cases o with
    | some e => exact absurd hlt.1 (by simp)
    | none =>
      dsimp only
      have hartist_not : ¬ pathExists st1 (data_dir_for_archive_by_artist a) := by
        intro hex
        have hsrc := pathExists_linkTags_sources a.tags s
          (data_dir_of_id a.id) a _ (by rw [heq]; exact hex)
        rcases hsrc with hp | ⟨t, ht, hor⟩
        · exact hfresh _
            (List.mem_append.2 (Or.inr (List.mem_singleton.2 rfl))) hp
        · rcases hor with h4 | h3
          · exact hsplit.2.2 (h4 ▸ List.mem_map.2 ⟨t, ht, rfl⟩)
              (List.mem_singleton.2 rfl)
          · exact artist_alias_ne_dropLast_tag a t.name h3
      have hartist_not2 : ¬ pathExists
          (create_dir_all st1 (data_dir_for_archive_by_artist a).dropLast)
          (data_dir_for_archive_by_artist a) := by
        rw [pathExists_create_dir_all_iff]
        rintro (hp | hpar)
        · exact hartist_not hp
        · exact artist_alias_ne_dropLast_artist a hpar
      rcases symlink_at_cases
          (create_dir_all st1 (data_dir_for_archive_by_artist a).dropLast)
          (data_dir_of_id a.id) (data_dir_for_archive_by_artist a) with
        ⟨hE, _⟩ | ⟨_, heq2⟩
      · exact absurd hE hartist_not2
      · rw [heq2]
        dsimp only
        refine ⟨rfl, ?_⟩
        intro p hp
        rcases List.mem_append.1 hp with htag | hart
        · rcases List.mem_map.1 htag with ⟨t, ht, rfl⟩
          exact List.mem_cons_of_mem _
            ((fsonly_create_dir_all st1 _).1.2.1 _ (hlt.2 t ht))
        · rw [List.mem_singleton] at hart
          subst hart
          exact List.mem_cons_self _ _

/-- Claim C2, counterexample: in `relinkFS` the tag alias of `exArchive`
already exists and points at the very canonical per-id directory, yet
`build_data_symlinks_for` fails — a preexisting alias pointing at the same
target is an error, so re-link is not idempotent. -/
theorem build_symlinks_relink_counterexample :
    (data_dir_for_archive_by_tag "t" exArchive, data_dir_of_id exArchive.id)
      ∈ relinkFS.symlinks ∧
    (build_data_symlinks_for relinkFS exArchive).2 ≠ none := by
  decide

/-- Claim C2 (amended): `build_data_symlinks_for` creates one alias per tag
plus one for the record's artist, all pointing at the canonical per-id
directory, when no alias path is occupied; and it fails whenever any alias
path already exists — even one already pointing at the same canonical
unit — so calling link twice on the same record fails the second time. -/
theorem build_symlinks_characterization (s : FSState) (a : Archive) :
    ((∀ p ∈ aliasPaths a, ¬ pathExists s p) → (aliasPaths a).Nodup →
      (build_data_symlinks_for s a).2 = none ∧
      ∀ p ∈ aliasPaths a, (p, data_dir_of_id a.id) ∈
        (build_data_symlinks_for s a).1.symlinks) ∧
    ((∃ p ∈ aliasPaths a, pathExists s p) →
      (build_data_symlinks_for s a).2 ≠ none) :=
  ⟨build_ok s a, build_fails s a⟩

/-- Witness for the amended C2: a fresh link of `exArchive` over the empty
state succeeds and creates both aliases; re-linking over `relinkFS`
(aliases already present, same target) fails. -/
theorem build_symlinks_characterization_witness :
    ((build_data_symlinks_for emptyFS exArchive).2 = none ∧
      ∀ p ∈ aliasPaths exArchive, (p, data_dir_of_id exArchive.id) ∈
        (build_data_symlinks_for emptyFS exArchive).1.symlinks) ∧
    (build_data_symlinks_for relinkFS exArchive).2 ≠ none := by
  refine ⟨(build_symlinks_characterization emptyFS exArchive).1
      (by decide) (by decide),
    (build_symlinks_characterization relinkFS exArchive).2 ?_⟩
  exact ⟨data_dir_for_archive_by_tag "t" exArchive, by decide, by decide⟩

lemma lexLtB_asymm : ∀ (x y : List Nat),
    lexLtB x y = true → lexLtB y x = false := by
  intro x
  induction x with
  | nil =>
    intro y h
    cases y with
    | nil => simp [lexLtB] at h
    | cons b bs => simp [lexLtB]
  | cons a as ih =>
    intro y h
    cases y with
    | nil => simp [lexLtB] at h
    | cons b bs =>
      simp only [lexLtB, Bool.or_eq_true, Bool.and_eq_true,
        decide_eq_true_eq, beq_iff_eq] at h
      rw [← Bool.not_eq_true]
      simp only [lexLtB, Bool.or_eq_true, Bool.and_eq_true,
        decide_eq_true_eq, beq_iff_eq]
      rcases h with hab | ⟨rfl, hrec⟩
      · rintro (hba | ⟨heq, _⟩)
        · omega
        · omega
      · rintro (hba | ⟨heq, hrec2⟩)
        · omega
        · rw [ih bs hrec] at hrec2
          exact Bool.false_ne_true hrec2

lemma lexLtB_trans : ∀ (x y z : List Nat),
    lexLtB x y = true → lexLtB y z = true → lexLtB x z = true := by
  intro x
  induction x with
  | nil =>
    intro y z h1 h2
    cases y with
    | nil => simp [lexLtB] at h1
    | cons b bs =>
      cases z with
      | nil => simp [lexLtB] at h2
      | cons c cs => simp [lexLtB]
  | cons a as ih =>
    intro y z h1 h2
    cases y with
    | nil => simp [lexLtB] at h1
    | cons b bs =>
      cases z with
      | nil => simp [lexLtB] at h2
      | cons c cs =>
        simp only [lexLtB, Bool.or_eq_true, Bool.and_eq_true,
          decide_eq_true_eq, beq_iff_eq] at h1 h2 ⊢
        rcases h1 with h1 | ⟨rfl, h1⟩
        · rcases h2 with h2 | ⟨rfl, h2⟩
          · exact Or.inl (Nat.lt_trans h1 h2)
          · exact Or.inl h1
        · rcases h2 with h2 | ⟨rfl, h2⟩
          · exact Or.inl h2
          · exact Or.inr ⟨rfl, ih bs cs h1 h2⟩

lemma to_be_bytes_lt {a b : Nat} (hab : a < b) (hb : b < 2 ^ 32) :
    lexLtB (to_be_bytes a) (to_be_bytes b) = true := by
  have ha : a < 2 ^ 32 := Nat.lt_trans hab hb
  simp only [to_be_bytes, lexLtB, Bool.or_eq_true, Bool.and_eq_true,
    decide_eq_true_eq, beq_iff_eq]
  rcases Nat.lt_trichotomy (a / 2 ^ 24) (b / 2 ^ 24) with h0 | h0 | h0
  · left; omega
  · right
    refine ⟨by omega, ?_⟩
    rcases Nat.lt_trichotomy (a / 2 ^ 16) (b / 2 ^ 16) with h1 | h1 | h1
    · left; omega
    · right
      refine ⟨by omega, ?_⟩
      rcases Nat.lt_trichotomy (a / 2 ^ 8) (b / 2 ^ 8) with h2 | h2 | h2
      · left; omega
      · right
        refine ⟨by omega, ?_⟩
        omega
      · exfalso; omega
    · exfalso; omega
  · exfalso; omega

lemma fromBytes_to_be_bytes {n : Nat} (h : n < 2 ^ 32) :
    fromBytes (to_be_bytes n) = n := by
  simp only [to_be_bytes, fromBytes, List.length_cons, List.length_nil]
  omega

lemma insertByKey_perm (e : List Nat × SledBlob)
    (l : List (List Nat × SledBlob)) :
    List.Perm (insertByKey e l) (e :: l) := by
  induction l with
  | nil => exact List.Perm.refl _
  | cons f rest ih =>
    unfold insertByKey
    split
    · exact List.Perm.refl _
    · exact (ih.cons f).trans (List.Perm.swap e f rest)

lemma insertByKey_sorted (e : List Nat × SledBlob)
    (l : List (List Nat × SledBlob))
    (h : l.Pairwise fun x y => lexLtB y.1 x.1 = false) :
    (insertByKey e l).Pairwise fun x y => lexLtB y.1 x.1 = false := by
  induction l with
  | nil => simp [insertByKey]
  | cons f rest ih =>
    rw [List.pairwise_cons] at h
    unfold insertByKey
    split
    · rename_i hlt
      rw [List.pairwise_cons]
      refine ⟨?_, List.pairwise_cons.2 h⟩
      intro y hy
      rcases List.mem_cons.1 hy with rfl | hy
      · exact lexLtB_asymm _ _ hlt
      · rw [← Bool.not_eq_true]
        intro hxy
        have := lexLtB_trans _ _ _ hxy hlt
        rw [h.1 y hy] at this
        exact Bool.false_ne_true this
    · rename_i hnlt
      rw [List.pairwise_cons]
      refine ⟨?_, ih h.2⟩
      intro y hy
      rcases List.mem_cons.1 ((insertByKey_perm e rest).mem_iff.1 hy)
          with rfl | hy
      · exact Bool.not_eq_true _ ▸ (Bool.eq_false_iff.2 hnlt)
      · exact h.1 y hy

lemma sled_iter_sorted (store : List (List Nat × SledBlob)) :
    (sled_iter store).Pairwise fun x y => lexLtB y.1 x.1 = false := by
  induction store with
  | nil => simp [sled_iter]
  | cons e rest ih => exact insertByKey_sorted e _ ih

lemma sled_iter_perm (store : List (List Nat × SledBlob)) :
    List.Perm (sled_iter store) store := by
  induction store with
  | nil => exact List.Perm.refl _
  | cons e rest ih => exact (insertByKey_perm e _).trans (ih.cons e)

/-- Claim C8: record-store keys are the big-endian bytes of the id (as
`commitState` writes them); big-endian encoding is monotone with respect to
sled's byte order; and full iteration over a store keyed by in-range
big-endian ids yields the entries in strictly ascending id order. -/
theorem sled_key_order :
    (∀ (st1 : FSState) (a : Archive) (pdf : Bool),
      (commitState st1 a pdf).sled =
        sledInsert (to_be_bytes a.id) (SledBlob.good a) st1.sled) ∧
    (∀ a b : Nat, a < b → b < 2 ^ 32 →
      lexLtB (to_be_bytes a) (to_be_bytes b) = true) ∧
    (∀ store : List (List Nat × SledBlob),
      (∀ e ∈ store, ∃ id, id < 2 ^ 32 ∧ e.1 = to_be_bytes id) →
      store.Pairwise (fun e f => e.1 ≠ f.1) →
      ((sled_iter store).map fun e => fromBytes e.1).Sorted (· < ·)) := by
  refine ⟨fun st1 a pdf => (commitState_spec st1 a pdf).2.1,
    fun a b hab hb => to_be_bytes_lt hab hb, ?_⟩
  intro store hwf hnd
  have hperm := sled_iter_perm store
  have hsort := sled_iter_sorted store
  have hwf' : ∀ e ∈ sled_iter store, ∃ id, id < 2 ^ 32 ∧
      e.1 = to_be_bytes id := fun e he => hwf e (hperm.subset he)
  have hnd' : (sled_iter store).Pairwise fun e f => e.1 ≠ f.1 :=
    (hperm.pairwise_iff fun h => h.symm).2 hnd
  have hcomb := hsort.and hnd'
  rw [List.Sorted, List.pairwise_map]
  refine hcomb.imp_of_mem ?_
  intro e f he hf hef
  obtain ⟨x, hx, hex⟩ := hwf' e he
  obtain ⟨y, hy, hfy⟩ := hwf' f hf
  rw [hex, hfy, fromBytes_to_be_bytes hx, fromBytes_to_be_bytes hy]
  rcases Nat.lt_trichotomy x y with hlt | heq | hgt
  · exact hlt
  · exact absurd (by rw [hex, hfy, heq]) hef.2
  · have := to_be_bytes_lt hgt hx
    rw [← hex, ← hfy] at this
    rw [hef.1] at this
    exact absurd this Bool.false_ne_true

/-- Witness for C8: the key of id 3 precedes the key of id 258, and
iterating a two-entry store inserted in descending id order yields ids in
ascending order. -/
theorem sled_key_order_witness :
    (commitState emptyFS exArchive true).sled =
      sledInsert (to_be_bytes exArchive.id) (SledBlob.good exArchive)
        emptyFS.sled ∧
    lexLtB (to_be_bytes 3) (to_be_bytes 258) = true ∧
    ((sled_iter [(to_be_bytes 258, SledBlob.corrupt),
        (to_be_bytes 3, SledBlob.corrupt)]).map
      fun e => fromBytes e.1).Sorted (· < ·) := by
  refine ⟨sled_key_order.1 emptyFS exArchive true,
    sled_key_order.2.1 3 258 (by decide) (by decide),
    sled_key_order.2.2 _ ?_ (by decide)⟩
  intro e he
  rcases List.mem_cons.1 he with rfl | he2
  · exact ⟨258, by decide, rfl⟩
  · rcases List.mem_cons.1 he2 with rfl | he3
    · exact ⟨3, by decide, rfl⟩
    · simp at he3

/-- Witness for C5: ingesting into a state whose tag-alias path is occupied,
so symlink building fails while the commit succeeds. -/
theorem add_archive_link_failure_witness :
    ∃ st', add_archive aliasBlockedFS exArchive false true true true =
      .ok (true, st') ∧
      sledGet (to_be_bytes exArchive.id) st'.sled =
        some (.good exArchive) ∧
      st'.index = aliasBlockedFS.index ++ [indexDocOf exArchive] :=
  add_archive_link_failure_still_commits aliasBlockedFS exArchive false true
    (by decide) (by decide)


